import Mathlib

/-!
Verification development for the photo-gallery generator (`main.go`).

The definitions below are a shallow embedding of the program's pure core:
the record model (`imageDetails`), the dedup/cache engine
(`galleryCache.add`, `galleryCache.addWithPhash`), the dimension
transform (`transform.newDimensions`, `newTransform`), and the
orchestration decisions around cache loading and finalization
(`initialPage`, `finalizeRun`).

Machine integers: the Go code stores fingerprints in `uint64` and sizes
in `int`, but every operation modelled here is a comparison, a division,
or a bounded shift, so they are embedded as `Nat` (with explicit `% 256`
where Go truncates to `byte`).  Go `time.Time` values are only compared
with `Equal` and `After`, so capture times are embedded as `Int`
instants.  The perceptual-hash distance metric is an external
collaborator (package `github.com/artyom/phash`), so the cache
operations take it as an explicit function parameter `dist`.
-/

set_option maxHeartbeats 1000000

/-- Record of one gallery image: the embedding of Go's `imageDetails`
struct (field `Hash` is the 64-bit fingerprint, `Time` the capture
instant). -/
structure imageDetails where
  Portrait : Bool
  Original : String
  Thumbnail : String
  Source : String
  Hash : Nat
  Time : Int
deriving DecidableEq, Repr

/-- Default record value, used only to embed Go's in-bounds slice
indexing `c.Images[i]` as `List.getD i dImg`. -/
def dImg : imageDetails :=
  { Portrait := false, Original := "", Thumbnail := "", Source := "", Hash := 0, Time := 0 }

/-- Embedding of `idToBytes`: the fingerprint as eight bytes in
big-endian order (`byte(v>>56), ..., byte(v)`). -/
def idToBytes (v : Nat) : List Nat :=
  [v / 2 ^ 56 % 256, v / 2 ^ 48 % 256, v / 2 ^ 40 % 256, v / 2 ^ 32 % 256,
   v / 2 ^ 24 % 256, v / 2 ^ 16 % 256, v / 2 ^ 8 % 256, v % 256]

/-- Alphabet of base64 URL encoding (RFC 4648 `base64url`), used by
`base64.RawURLEncoding` in `imageDetails.ID`. -/
def b64urlAlphabet : List Char :=
  "ABCDEFGHIJKLMNOPQRSTUVWXYZabcdefghijklmnopqrstuvwxyz0123456789-_".toList

/-- Character of the base64url alphabet at a 6-bit index. -/
def b64urlChar (n : Nat) : Char := b64urlAlphabet.getD n (Char.ofNat 65)

/-- Unpadded base64url encoding of a byte list, the embedding of
`base64.RawURLEncoding.EncodeToString`. -/
def b64urlEncode : List Nat → List Char
  | [] => []
  | [b0] => [b64urlChar (b0 / 4), b64urlChar (b0 % 4 * 16)]
  | [b0, b1] =>
    [b64urlChar (b0 / 4), b64urlChar (b0 % 4 * 16 + b1 / 16), b64urlChar (b1 % 16 * 4)]
  | b0 :: b1 :: b2 :: rest =>
    b64urlChar (b0 / 4) :: b64urlChar (b0 % 4 * 16 + b1 / 16) ::
      b64urlChar (b1 % 16 * 4 + b2 / 64) :: b64urlChar (b2 % 64) :: b64urlEncode rest

/-- Embedding of `imageDetails.ID`: base64url of the big-endian bytes of
the fingerprint. -/
def imageDetails.ID (d : imageDetails) : String :=
  String.mk (b64urlEncode (idToBytes d.Hash))

/-- Escaping of one character under Go's `%q` string verb, restricted to
the characters that actually occur in the program's paths (quote and
backslash escaped, other printable characters unchanged; control-char
escapes are not modelled since no claim exercises them). -/
def goQuoteChar (c : Char) : List Char :=
  if c = Char.ofNat 34 then [Char.ofNat 92, Char.ofNat 34]
  else if c = Char.ofNat 92 then [Char.ofNat 92, Char.ofNat 92]
  else [c]

/-- Embedding of Go's `%q` format verb on strings: the argument wrapped
in double quotes, special characters escaped. -/
def goQuote (s : String) : String :=
  String.mk (Char.ofNat 34 :: ((s.toList.map goQuoteChar).flatten ++ [Char.ofNat 34]))

/-- Boolean test that `needle` is a prefix of `haystack` (used to state
what an error message names). -/
def strHasPre : List Char → List Char → Bool
  | [], _ => true
  | _ :: _, [] => false
  | p :: ps, c :: cs => p == c && strHasPre ps cs

/-- Boolean substring search over character lists. -/
def strFind (needle : List Char) : List Char → Bool
  | [] => strHasPre needle []
  | c :: cs => strHasPre needle (c :: cs) || strFind needle cs

/-- Boolean test that string `s` contains `sub` as a substring: the
sense in which an error message "names" a path. -/
def containsStr (s sub : String) : Bool := strFind sub.toList s.toList

/-- Embedding of Go's `galleryCache` struct.  The lazily-built
fingerprint lookup map `dups` is kept as an association list whose most
recent entry is consulted first (the observable behaviour of a Go map);
the unexported `sync` fields do not translate: the mutex serializes the
calls modelled here, and the `onceSortPhash` initial stable sort is a
no-op on the hash-sorted states the perceptual-mode theorems quantify
over. -/
structure galleryCache where
  Name : String
  UsePhash : Bool
  Images : List imageDetails
  dups : Option (List (Nat × String))
  n : Nat
deriving DecidableEq, Repr

/-- Lazy construction of the exact-mode lookup map from pre-loaded
records (`for _, info := range c.Images { dups[info.Hash] = info.Source }`);
prepending each entry makes `List.lookup` return the most recent write,
matching Go map assignment. -/
def buildDups (l : List imageDetails) : List (Nat × String) :=
  l.foldl (fun m r => (r.Hash, r.Source) :: m) []

/-- Effective lookup map of an exact-mode cache: the stored map if
already built, else the map lazily built from `Images`
(`if c.dups == nil { ... }`). -/
def mEff (c : galleryCache) : List (Nat × String) :=
  match c.dups with
  | some m => m
  | none => buildDups c.Images

/-- Message of the exact-mode duplicate error
(`"gallery already has image with id %q: %q (original file name)"`,
formatted with the incoming record's identifier and the already-stored
source path). -/
def dupIdMsg (info : imageDetails) (s : String) : String :=
  "gallery already has image with id " ++ goQuote info.ID ++ ": " ++ goQuote s ++
    " (original file name)"

/-- Exact-mode body of `galleryCache.add` (the code after the
`UsePhash` dispatch): lazily build the lookup map, then accept, skip, or
reject the incoming record. -/
def addNoPhash (c : galleryCache) (info : imageDetails) : galleryCache × Option String :=
  let m := mEff c
  match m.lookup info.Hash with
  | some s =>
    if s = info.Source then ({ c with dups := some m }, none)
    else ({ c with dups := some m }, some (dupIdMsg info s))
  | none =>
    ({ c with
        Images := c.Images ++ [info]
        dups := some ((info.Hash, info.Source) :: m)
        n := c.n + 1 }, none)

/-- Embedding of `minDiff`: the phash similarity threshold; distances
less than or equal to it are reported as likely duplicates. -/
def minDiff : Nat := 5

/-- Loop body of Go's `sort.Search` binary search, with explicit fuel
(the initial interval width bounds the iteration count). -/
def goSearchAux (f : Nat → Bool) : Nat → Nat → Nat → Nat
  | 0, i, _ => i
  | fuel + 1, i, j =>
    if i < j then
      if f ((i + j) / 2) then goSearchAux f fuel i ((i + j) / 2)
      else goSearchAux f fuel ((i + j) / 2 + 1) j
    else i

/-- Embedding of `sort.Search(n, f)`: binary search for the least index
in `[0, n]` at which the monotone predicate `f` holds. -/
def goSearch (n : Nat) (f : Nat → Bool) : Nat := goSearchAux f n 0 n

/-- Predicate searched by `addWithPhash`
(`func(i int) bool { return c.Images[i].Hash >= info.Hash }`): record at
index `k` has fingerprint at least the incoming one. -/
def hashGE (l : List imageDetails) (t : Nat) (k : Nat) : Bool :=
  decide (t ≤ (l.getD k dImg).Hash)

/-- Index found by `addWithPhash`'s binary search for an incoming
fingerprint. -/
def searchIdx (l : List imageDetails) (t : Nat) : Nat :=
  goSearch l.length (hashGE l t)

/-- Message of the perceptual near-duplicate error
(`"possible duplicate (phash similarity distance=%d) of %q (source filename %q)"`). -/
def phashDupMsg (diff : Nat) (info2 : imageDetails) : String :=
  "possible duplicate (phash similarity distance=" ++ toString diff ++ ") of " ++
    goQuote info2.Original ++ " (source filename " ++ goQuote info2.Source ++ ")"

/-- Message of the exact perceptual duplicate error
(`"duplicate (same phash) of %q (source filename %q)"`). -/
def samePhashMsg (info2 : imageDetails) : String :=
  "duplicate (same phash) of " ++ goQuote info2.Original ++ " (source filename " ++
    goQuote info2.Source ++ ")"

/-- Embedding of `galleryCache.addWithPhash` (after the once-guarded
initial sort): binary-search the insertion index, check the two sorted
neighbours against the distance threshold `dist`, and append / insert /
skip / reject exactly as the Go code does.  The insertion
`head := Images[:i+1]; copy tail; head[i] = info; append(head, tail...)`
amounts to `take i ++ info :: drop i`. -/
def addWithPhash (dist : Nat → Nat → Nat) (c : galleryCache) (info : imageDetails) :
    galleryCache × Option String :=
  let n := c.Images.length
  let i := searchIdx c.Images info.Hash
  if i = n then
    if i ≠ 0 then
      let info2 := c.Images.getD (i - 1) dImg
      if dist info.Hash info2.Hash ≤ minDiff then
        (c, some (phashDupMsg (dist info.Hash info2.Hash) info2))
      else
        ({ c with Images := c.Images ++ [info], n := c.n + 1 }, none)
    else
      ({ c with Images := c.Images ++ [info], n := c.n + 1 }, none)
  else
    let info2 := c.Images.getD i dImg
    if info2.Hash = info.Hash then
      if info2.Source = info.Source ∧ info2.Time = info.Time then (c, none)
      else (c, some (samePhashMsg info2))
    else if dist info.Hash info2.Hash ≤ minDiff then
      (c, some (phashDupMsg (dist info.Hash info2.Hash) info2))
    else if 0 < i ∧ dist info.Hash (c.Images.getD (i - 1) dImg).Hash ≤ minDiff then
      (c, some (phashDupMsg (dist info.Hash (c.Images.getD (i - 1) dImg).Hash)
        (c.Images.getD (i - 1) dImg)))
    else
      ({ c with Images := c.Images.take i ++ info :: c.Images.drop i, n := c.n + 1 }, none)

/-- Embedding of `galleryCache.add`, the `tryInsert` operation: dispatch
on the cache's fingerprint mode. -/
def galleryCache.add (dist : Nat → Nat → Nat) (c : galleryCache) (info : imageDetails) :
    galleryCache × Option String :=
  if c.UsePhash then addWithPhash dist c info else addNoPhash c info

/-- Bitwise recursion computing the Hamming distance of two naturals,
with 64 bits of fuel. -/
def hamAux : Nat → Nat → Nat → Nat
  | 0, _, _ => 0
  | fuel + 1, a, b => (if a % 2 = b % 2 then 0 else 1) + hamAux fuel (a / 2) (b / 2)

/-- Modelled from the spec: the perceptual distance metric is an
external collaborator (`phash.Distance`, not under `src/`); the spec
only requires a symmetric non-negative distance on 64-bit fingerprints.
`hamDist` is one such metric (Hamming distance), used to instantiate
parametric statements. -/
def hamDist (a b : Nat) : Nat := hamAux 64 a b

/-- Absolute difference on `Nat`: another symmetric distance used to
instantiate parametric statements. -/
def absDist (a b : Nat) : Nat := (a - b) + (b - a)

/-- Ordering of records by non-decreasing fingerprint. -/
def hashLE (a b : imageDetails) : Prop := a.Hash ≤ b.Hash

instance : DecidableRel hashLE := fun a b => inferInstanceAs (Decidable (a.Hash ≤ b.Hash))

/-- Collection sorted by non-decreasing fingerprint: the perceptual-mode
representation invariant established by the once-guarded initial sort. -/
def sortedByHash (l : List imageDetails) : Prop := List.Sorted hashLE l

instance (l : List imageDetails) : Decidable (sortedByHash l) :=
  inferInstanceAs (Decidable (List.Sorted hashLE l))

/-- Two records whose fingerprints are strictly beyond the similarity
threshold under the metric `dist`. -/
def farApart (dist : Nat → Nat → Nat) (a b : imageDetails) : Prop :=
  minDiff < dist a.Hash b.Hash

instance (dist : Nat → Nat → Nat) : DecidableRel (farApart dist) :=
  fun a b => inferInstanceAs (Decidable (minDiff < dist a.Hash b.Hash))

/-- Adjacent records of the collection are pairwise beyond the
similarity threshold. -/
def neighborsSeparated (dist : Nat → Nat → Nat) (l : List imageDetails) : Prop :=
  List.Chain' (farApart dist) l

instance (dist : Nat → Nat → Nat) (l : List imageDetails) :
    Decidable (neighborsSeparated dist l) :=
  inferInstanceAs (Decidable (List.Chain' (farApart dist) l))

/-- Ordering of records by non-increasing capture time (newest first). -/
def byTimeDesc (a b : imageDetails) : Prop := b.Time ≤ a.Time

instance : DecidableRel byTimeDesc := fun a b => inferInstanceAs (Decidable (b.Time ≤ a.Time))

/-- Embedding of `galleryCache.sortByTime`: sort the collection newest
first.  Go's `sort.Slice` (an unstable sort with the strict comparator
`Time.After`) is modelled by insertion sort; only sortedness and the
underlying permutation are observable, and the spec requires no
stability for equal timestamps. -/
def sortByTime (c : galleryCache) : galleryCache :=
  { c with Images := c.Images.insertionSort byTimeDesc }

/-- Finalization step of `run` after walker and workers complete without
error: fail with the empty-result error when the cache holds no records,
otherwise hand the time-sorted cache to the renderer. -/
def finalizeRun (c : galleryCache) : Except String galleryCache :=
  if c.Images.length = 0 then Except.error "no images found"
  else Except.ok (sortByTime c)

/-- Embedding of Go's `runArgs` flag structure. -/
structure runArgs where
  SrcDir : String
  FullsizeDir : String
  ThumbsDir : String
  HTML : String
  Template : String
  Cache : String
  Name : String
  Phash : Bool
deriving DecidableEq, Repr

/-- Cache-selection step at the start of `run`: build a fresh page from
the `-phash` flag, replace it wholesale by a successfully loaded
snapshot (`loaded = some c`; a missing snapshot file is `none`, and a
load failure aborts the run before this point), then apply the `-name`
override.  The second component records whether the mode-mismatch log
line is emitted. -/
def initialPage (args : runArgs) (loaded : Option galleryCache) : galleryCache × Bool :=
  let page : galleryCache :=
    { Name := "Gallery", UsePhash := args.Phash, Images := [], dups := none, n := 0 }
  let pl : galleryCache × Bool :=
    match loaded with
    | none => (page, false)
    | some c => (c, decide (c.UsePhash ≠ page.UsePhash))
  (if args.Name ≠ "" then { pl.1 with Name := args.Name } else pl.1, pl.2)

/-- Sequential execution of `tryInsert` over a list of incoming records,
returning the final cache and the sublist of records whose insert call
succeeded. -/
def runInsertsTrace (dist : Nat → Nat → Nat) (c : galleryCache) :
    List imageDetails → galleryCache × List imageDetails
  | [] => (c, [])
  | info :: rest =>
    let step := galleryCache.add dist c info
    let next := runInsertsTrace dist step.1 rest
    (next.1, match step.2 with | none => info :: next.2 | some _ => next.2)

/-- Embedding of Go's `transform` size policy. -/
structure transform where
  Width : Nat
  Height : Nat
  MaxWidth : Nat
  MaxHeight : Nat
deriving DecidableEq, Repr

/-- Box of the max-bounds policy: whichever of `MaxWidth`/`MaxHeight`
is given, the missing one derived from the original aspect ratio
(the first two statements of the max-bounds branch of
`newDimensions`). -/
def derivedBox (tr : transform) (origWidth origHeight : Nat) : Nat × Nat :=
  let w := if tr.MaxWidth = 0 then origWidth * tr.MaxHeight / origHeight else tr.MaxWidth
  let h := if tr.MaxHeight = 0 then origHeight * w / origWidth else tr.MaxHeight
  (w, h)

/-- Rendering of a `transform` under Go's `%v` verb, as used in the
`"invalid transform %v"` error. -/
def goFmtTransform (tr : transform) : String :=
  "\x7b" ++ toString tr.Width ++ " " ++ toString tr.Height ++ " " ++
    toString tr.MaxWidth ++ " " ++ toString tr.MaxHeight ++ "\x7d"

/-- Embedding of `transform.newDimensions`.  The free-aspect-ratio
comparison `float64(origW)/float64(origH) > float64(w)/float64(h)` is
embedded as the exact cross-multiplied comparison; no claim exercises
that branch, and the two agree away from float rounding. -/
def transform.newDimensions (tr : transform) (origWidth origHeight : Nat) :
    Except String (Nat × Nat) :=
  if origWidth = 0 ∨ origHeight = 0 then Except.error "invalid source dimensions"
  else if 0 < tr.MaxWidth ∨ 0 < tr.MaxHeight then
    let w := (derivedBox tr origWidth origHeight).1
    let h := (derivedBox tr origWidth origHeight).2
    if origWidth ≤ w ∧ origHeight ≤ h then Except.ok (origWidth, origHeight)
    else if 0 < tr.MaxWidth ∧ 0 < tr.MaxHeight then
      if origWidth * h > w * origHeight then Except.ok (w, origHeight * w / origWidth)
      else Except.ok (origWidth * h / origHeight, h)
    else Except.ok (w, h)
  else if 0 < tr.Width ∨ 0 < tr.Height then
    let w := if tr.Width = 0 then origWidth * tr.Height / origHeight else tr.Width
    let h := if tr.Height = 0 then origHeight * w / origWidth else tr.Height
    Except.ok (w, h)
  else Except.error ("invalid transform " ++ goFmtTransform tr)

/-- Embedding of `newTransform`: reject a policy with no dimension set
at all. -/
def newTransform (width height maxWidth maxHeight : Nat) : Except String transform :=
  if width = 0 ∧ height = 0 ∧ maxWidth = 0 ∧ maxHeight = 0 then
    Except.error "no valid dimensions specified"
  else Except.ok { Width := width, Height := height, MaxWidth := maxWidth, MaxHeight := maxHeight }

/-- Boolean test that an `Except` computation failed. -/
def isErr {ε α : Type} : Except ε α → Bool
  | Except.error _ => true
  | Except.ok _ => false

instance : IsTotal imageDetails byTimeDesc := ⟨fun a b => le_total b.Time a.Time⟩

instance : IsTrans imageDetails byTimeDesc := ⟨fun _ _ _ hab hbc => le_trans hbc hab⟩

/-- Record with the given fingerprint, source path and capture time (the
artifact references derived the way the worker derives them). -/
def mkRec (h : Nat) (src : String) (t : Int) : imageDetails :=
  { Portrait := false, Original := "fullsize/" ++ src, Thumbnail := "thumbnails/" ++ src,
    Source := src, Hash := h, Time := t }

/-- Fresh exact-mode cache, as built by `run` without `-phash`. -/
def emptyExact : galleryCache :=
  { Name := "Gallery", UsePhash := false, Images := [], dups := none, n := 0 }

/-- Fresh perceptual-mode cache, as built by `run` with `-phash`. -/
def emptyPhash : galleryCache :=
  { Name := "Gallery", UsePhash := true, Images := [], dups := none, n := 0 }

/-- Perceptual-mode cache holding two well-separated records, used as a
concrete witness state. -/
def sortedPairCache : galleryCache :=
  { Name := "Gallery", UsePhash := true, Images := [mkRec 100 "a.jpg" 0, mkRec 500 "b.jpg" 0],
    dups := none, n := 2 }

/-- Perceptual-mode cache holding one record, used as a concrete witness
state. -/
def singletonPhashCache : galleryCache :=
  { Name := "Gallery", UsePhash := true, Images := [mkRec 5 "a.jpg" 10], dups := none, n := 1 }

/-- Exact-mode cache holding two records with distinct capture times,
used as a concrete witness state. -/
def twoRecCache : galleryCache :=
  { Name := "Gallery", UsePhash := false, Images := [mkRec 1 "a.jpg" 10, mkRec 2 "b.jpg" 20],
    dups := none, n := 2 }

/-- Thumbnail policy used by `run` (`newTransform(0, 0, 500, 500)`). -/
def boundTr : transform := { Width := 0, Height := 0, MaxWidth := 500, MaxHeight := 500 }

/-- Policy with no dimension set at all. -/
def zeroTr : transform := { Width := 0, Height := 0, MaxWidth := 0, MaxHeight := 0 }

/-- Loop invariant of the binary search: with enough fuel, starting from
an interval whose left part is all-false and whose right part is
all-true, the search returns the boundary index. -/
lemma goSearchAux_spec (f : Nat → Bool) (n : Nat)
    (hmono : ∀ a b : Nat, a ≤ b → b < n → f a = true → f b = true) :
    ∀ (fuel i j : Nat), i ≤ j → j ≤ n → j - i ≤ fuel →
      (∀ k, k < i → f k = false) → (∀ k, j ≤ k → k < n → f k = true) →
      i ≤ goSearchAux f fuel i j ∧ goSearchAux f fuel i j ≤ j ∧
        (∀ k, k < goSearchAux f fuel i j → f k = false) ∧
        (∀ k, goSearchAux f fuel i j ≤ k → k < n → f k = true) := by
  intro fuel
  induction fuel with
  | zero =>
    intro i j hij hjn hfuel hlow hhigh
    have hije : i = j := by omega
    subst hije
    exact ⟨le_rfl, le_rfl, hlow, fun k hk hkn => hhigh k hk hkn⟩
  | succ fuel ih =>
    intro i j hij hjn hfuel hlow hhigh
    by_cases hlt : i < j
    · have hmid1 : i ≤ (i + j) / 2 := by omega
      have hmid2 : (i + j) / 2 < j := by omega
      by_cases hf : f ((i + j) / 2) = true
      · have hrec := ih i ((i + j) / 2) hmid1 (by omega) (by omega) hlow
          (fun k hk hkn => hmono ((i + j) / 2) k hk hkn hf)
        simp only [goSearchAux, if_pos hlt, if_pos hf]
        exact ⟨hrec.1, le_trans hrec.2.1 (le_of_lt hmid2), hrec.2.2⟩
      · have hf0 : f ((i + j) / 2) = false := by
          cases hfb : f ((i + j) / 2) with
          | false => rfl
          | true => exact absurd hfb hf
        have hlow2 : ∀ k, k < (i + j) / 2 + 1 → f k = false := by
          intro k hk
          by_cases hki : k < i
          · exact hlow k hki
          · cases hkb : f k with
            | false => rfl
            | true =>
              have : f ((i + j) / 2) = true :=
                hmono k ((i + j) / 2) (by omega) (by omega) hkb
              rw [this] at hf0
              exact absurd hf0 (by simp)
        have hrec := ih ((i + j) / 2 + 1) j (by omega) hjn (by omega) hlow2 hhigh
        simp only [goSearchAux, if_pos hlt, if_neg hf]
        exact ⟨by omega, hrec.2.1, hrec.2.2⟩
    · have hije : i = j := by omega
      simp only [goSearchAux, if_neg hlt]
      exact ⟨le_rfl, le_of_eq hije, hlow, fun k hk hkn => hhigh k (by omega) hkn⟩

/-- Characterization of `goSearch` for a monotone predicate: the result
is the boundary between the false prefix and the true suffix. -/
lemma goSearch_spec (n : Nat) (f : Nat → Bool)
    (hmono : ∀ a b : Nat, a ≤ b → b < n → f a = true → f b = true) :
    goSearch n f ≤ n ∧ (∀ k, k < goSearch n f → f k = false) ∧
      (∀ k, goSearch n f ≤ k → k < n → f k = true) := by
  have h := goSearchAux_spec f n hmono n 0 n (Nat.zero_le n) le_rfl (by omega)
    (fun k hk => absurd hk (Nat.not_lt_zero k)) (fun k hk hkn => absurd hkn (by omega))
  exact ⟨h.2.1, h.2.2⟩

/-- In-bounds `getD` is `getElem`. -/
lemma getD_lt (l : List imageDetails) {k : Nat} (hk : k < l.length) :
    l.getD k dImg = l[k] := by
  simp [List.getD_eq_getElem?_getD, List.getElem?_eq_getElem hk]

/-- Fingerprints of a hash-sorted collection are monotone in the
index. -/
lemma sorted_hash_mono (l : List imageDetails) (hs : sortedByHash l) {a b : Nat}
    (hab : a ≤ b) (hb : b < l.length) :
    (l.getD a dImg).Hash ≤ (l.getD b dImg).Hash := by
  have ha : a < l.length := lt_of_le_of_lt hab hb
  rw [getD_lt l ha, getD_lt l hb]
  rcases Nat.lt_or_ge a b with hlt | hge
  · exact (List.pairwise_iff_getElem.mp hs) a b ha hb hlt
  · have : a = b := by omega
    subst this
    exact le_rfl

/-- On a hash-sorted collection, the search index splits the collection
into the records with strictly smaller fingerprint and those with
fingerprint at least the incoming one. -/
lemma searchIdx_spec (l : List imageDetails) (t : Nat) (hs : sortedByHash l) :
    searchIdx l t ≤ l.length ∧
      (∀ k, k < searchIdx l t → (l.getD k dImg).Hash < t) ∧
      (∀ k, searchIdx l t ≤ k → k < l.length → t ≤ (l.getD k dImg).Hash) := by
  have hmono : ∀ a b : Nat, a ≤ b → b < l.length → hashGE l t a = true → hashGE l t b = true := by
    intro a b hab hb hfa
    have := sorted_hash_mono l hs hab hb
    simp only [hashGE, decide_eq_true_eq] at hfa ⊢
    omega
  have h := goSearch_spec l.length (hashGE l t) hmono
  refine ⟨h.1, fun k hk => ?_, fun k hk hkn => ?_⟩
  · have := h.2.1 k hk
    simp only [hashGE, decide_eq_false_iff_not] at this
    omega
  · have := h.2.2 k hk hkn
    simp only [hashGE, decide_eq_true_eq] at this
    exact this

/-- Binary search stays within its initial interval, with no
monotonicity assumption. -/
lemma goSearchAux_le (f : Nat → Bool) :
    ∀ (fuel i j : Nat), i ≤ j → i ≤ goSearchAux f fuel i j ∧ goSearchAux f fuel i j ≤ j := by
  intro fuel
  induction fuel with
  | zero => intro i j hij; exact ⟨le_rfl, hij⟩
  | succ fuel ih =>
    intro i j hij
    by_cases hlt : i < j
    · by_cases hf : f ((i + j) / 2) = true
      · have hrec := ih i ((i + j) / 2) (by omega)
        simp only [goSearchAux, if_pos hlt, if_pos hf]
        exact ⟨hrec.1, le_trans hrec.2 (by omega)⟩
      · have hrec := ih ((i + j) / 2 + 1) j (by omega)
        simp only [goSearchAux, if_pos hlt, if_neg hf]
        exact ⟨by omega, hrec.2⟩
    · simp only [goSearchAux, if_neg hlt]
      exact ⟨le_rfl, hij⟩

/-- Search index never exceeds the collection length. -/
lemma searchIdx_le (l : List imageDetails) (t : Nat) : searchIdx l t ≤ l.length :=
  (goSearchAux_le (hashGE l t) l.length 0 l.length (Nat.zero_le _)).2

/-- Inserting a record at a position that splits the collection into
smaller-fingerprint and larger-or-equal-fingerprint parts keeps the
collection hash-sorted. -/
lemma sorted_insert_at (l : List imageDetails) (info : imageDetails) (i : Nat)
    (hs : sortedByHash l)
    (hlow : ∀ k, k < i → (l.getD k dImg).Hash < info.Hash)
    (hhigh : ∀ k, i ≤ k → k < l.length → info.Hash ≤ (l.getD k dImg).Hash) :
    sortedByHash (l.take i ++ info :: l.drop i) := by
  have hmemtake : ∀ x ∈ l.take i, x.Hash ≤ info.Hash := by
    intro x hx
    obtain ⟨k, hk, hget⟩ := List.mem_iff_getElem.mp hx
    have hkl : k < i ∧ k < l.length := by
      have := hk
      simp only [List.length_take, lt_min_iff] at this
      exact this
    rw [List.getElem_take] at hget
    have hlk := hlow k hkl.1
    rw [getD_lt l hkl.2] at hlk
    rw [← hget]
    omega
  have hmemdrop : ∀ y ∈ l.drop i, info.Hash ≤ y.Hash := by
    intro y hy
    obtain ⟨k, hk, hget⟩ := List.mem_iff_getElem.mp hy
    have hkl : i + k < l.length := by
      have := hk
      simp only [List.length_drop] at this
      omega
    rw [List.getElem_drop] at hget
    have hik := hhigh (i + k) (by omega) hkl
    rw [getD_lt l hkl] at hik
    rw [← hget]
    omega
  show List.Pairwise hashLE (l.take i ++ info :: l.drop i)
  refine List.pairwise_append.2 ⟨List.Pairwise.sublist (List.take_sublist i l) hs, ?_, ?_⟩
  · refine List.pairwise_cons.2 ⟨fun y hy => hmemdrop y hy,
      List.Pairwise.sublist (List.drop_sublist i l) hs⟩
  · intro x hx y hy
    rcases List.mem_cons.mp hy with rfl | hy2
    · exact hmemtake x hx
    · exact le_trans (hmemtake x hx) (hmemdrop y hy2)

/-- A successful `addWithPhash` on a hash-sorted collection leaves the
collection hash-sorted (error and no-op results keep it unchanged). -/
lemma addWithPhash_sorted (dist : Nat → Nat → Nat) (c : galleryCache) (info : imageDetails)
    (hs : sortedByHash c.Images) :
    sortedByHash ((addWithPhash dist c info).1).Images := by
  have hspec := searchIdx_spec c.Images info.Hash hs
  simp only [addWithPhash]
  split_ifs with h1 h2 h3 h4 h5 h6 h7
  · exact hs
  · -- append at the end, nonempty collection, neighbour check passed
    have : sortedByHash (c.Images.take c.Images.length ++ info :: c.Images.drop c.Images.length) := by
      refine sorted_insert_at c.Images info c.Images.length hs ?_ ?_
      · intro k hk
        exact hspec.2.1 k (by omega)
      · intro k hk hk2
        omega
    simpa using this
  · -- append at the end of the empty collection
    have : sortedByHash (c.Images.take c.Images.length ++ info :: c.Images.drop c.Images.length) := by
      refine sorted_insert_at c.Images info c.Images.length hs ?_ ?_
      · intro k hk
        exact hspec.2.1 k (by omega)
      · intro k hk hk2
        omega
    simpa using this
  · exact hs
  · exact hs
  · exact hs
  · exact hs
  · -- insert at the search position
    exact sorted_insert_at c.Images info (searchIdx c.Images info.Hash) hs hspec.2.1 hspec.2.2

/-- For a symmetric distance metric, `addWithPhash` keeps adjacent
records of the collection strictly beyond the similarity threshold: the
call checks the incoming record against precisely the two records that
become its neighbours. -/
lemma addWithPhash_separated (dist : Nat → Nat → Nat) (hsym : ∀ a b : Nat, dist a b = dist b a)
    (c : galleryCache) (info : imageDetails)
    (hch : neighborsSeparated dist c.Images) :
    neighborsSeparated dist ((addWithPhash dist c info).1).Images := by
  have hle : searchIdx c.Images info.Hash ≤ c.Images.length := searchIdx_le c.Images info.Hash
  simp only [addWithPhash]
  set i := searchIdx c.Images info.Hash with hidef
  by_cases hEq : i = c.Images.length
  · by_cases hZ : i ≠ 0
    · by_cases hD : dist info.Hash (c.Images.getD (i - 1) dImg).Hash ≤ minDiff
      · rw [if_pos hEq, if_pos hZ, if_pos hD]
        exact hch
      · rw [if_pos hEq, if_pos hZ, if_neg hD]
        show List.Chain' (farApart dist) (c.Images ++ [info])
        refine List.Chain'.append hch (List.chain'_singleton info) ?_
        intro x hx y hy
        simp only [List.head?_cons, Option.mem_def, Option.some.injEq] at hy
        subst hy
        have hlast : i - 1 < c.Images.length := by omega
        have hieq : i - 1 = c.Images.length - 1 := by omega
        have h9 : c.Images[i - 1]? = some x := by
          rw [hieq, List.getElem?_eq_getElem (show c.Images.length - 1 < c.Images.length by omega)]
          rw [Option.mem_def, List.getLast?_eq_getElem?,
            List.getElem?_eq_getElem (show c.Images.length - 1 < c.Images.length by omega)] at hx
          exact hx
        rw [List.getElem?_eq_getElem hlast] at h9
        have hx2 := Option.some_inj.mp h9
        rw [getD_lt c.Images hlast] at hD
        show minDiff < dist x.Hash info.Hash
        rw [hsym, ← hx2]
        omega
    · rw [if_pos hEq, if_neg hZ]
      have hnil : c.Images = [] := List.length_eq_zero.mp (by omega)
      show List.Chain' (farApart dist) (c.Images ++ [info])
      rw [hnil]
      exact List.chain'_singleton info
  · have hlt : i < c.Images.length := by omega
    by_cases hHashEq : (c.Images.getD i dImg).Hash = info.Hash
    · by_cases hST : (c.Images.getD i dImg).Source = info.Source ∧
        (c.Images.getD i dImg).Time = info.Time
      · rw [if_neg hEq, if_pos hHashEq, if_pos hST]
        exact hch
      · rw [if_neg hEq, if_pos hHashEq, if_neg hST]
        exact hch
    · by_cases hD1 : dist info.Hash (c.Images.getD i dImg).Hash ≤ minDiff
      · rw [if_neg hEq, if_neg hHashEq, if_pos hD1]
        exact hch
      · by_cases hD2 : 0 < i ∧ dist info.Hash (c.Images.getD (i - 1) dImg).Hash ≤ minDiff
        · rw [if_neg hEq, if_neg hHashEq, if_neg hD1, if_pos hD2]
          exact hch
        · rw [if_neg hEq, if_neg hHashEq, if_neg hD1, if_neg hD2]
          show List.Chain' (farApart dist) (c.Images.take i ++ info :: c.Images.drop i)
          refine List.Chain'.append (hch.take i) ?_ ?_
          · refine List.chain'_cons'.2 ⟨?_, hch.drop i⟩
            intro y hy
            rw [Option.mem_def, List.head?_drop, List.getElem?_eq_getElem hlt] at hy
            have hy2 : c.Images[i] = y := Option.some_inj.mp hy
            show minDiff < dist info.Hash y.Hash
            rw [getD_lt c.Images hlt] at hD1
            rw [← hy2]
            omega
          · intro x hx y hy
            simp only [List.head?_cons, Option.mem_def, Option.some.injEq] at hy
            subst hy
            by_cases hi0 : 0 < i
            · have hlen : (c.Images.take i).length = i := by
                rw [List.length_take]
                omega
              have hidx : i - 1 < (c.Images.take i).length := by omega
              rw [Option.mem_def, List.getLast?_eq_getElem?, hlen,
                List.getElem?_eq_getElem hidx] at hx
              have hx2 := Option.some_inj.mp hx
              rw [List.getElem_take] at hx2
              push_neg at hD2
              have hfar := hD2 hi0
              rw [getD_lt c.Images (show i - 1 < c.Images.length by omega)] at hfar
              show minDiff < dist x.Hash info.Hash
              rw [hsym, ← hx2]
              omega
            · have hi00 : i = 0 := by omega
              rw [hi00] at hx
              simp at hx

/-- `addWithPhash` never changes the cache's fingerprint mode. -/
lemma addWithPhash_mode (dist : Nat → Nat → Nat) (c : galleryCache) (info : imageDetails) :
    ((addWithPhash dist c info).1).UsePhash = c.UsePhash := by
  simp only [addWithPhash]
  split_ifs <;> rfl

/-- `addNoPhash` never changes the cache's fingerprint mode. -/
lemma addNoPhash_mode (c : galleryCache) (info : imageDetails) :
    ((addNoPhash c info).1).UsePhash = c.UsePhash := by
  simp only [addNoPhash]
  rcases hl : List.lookup info.Hash (mEff c) with _ | s
  · rfl
  · by_cases hss : s = info.Source
    · simp only [if_pos hss]
    · simp only [if_neg hss]

/-- Lookup in an association list misses exactly when no entry carries
the key. -/
lemma lookup_none_iff (m : List (Nat × String)) (k : Nat) :
    m.lookup k = none ↔ ∀ p ∈ m, p.1 ≠ k := by
  induction m with
  | nil => simp
  | cons p rest ih =>
    rcases p with ⟨k1, v1⟩
    by_cases hk : k = k1
    · subst hk
      apply iff_of_false
      · rw [List.lookup_cons]
        simp
      · push_neg
        exact ⟨(k, v1), List.mem_cons_self _ _, rfl⟩
    · rw [List.lookup_cons]
      have hb : (k == k1) = false := beq_eq_false_iff_ne.mpr hk
      rw [hb]
      simp only [List.mem_cons]
      constructor
      · intro h p hp
        rcases hp with rfl | hp
        · exact fun he => hk he.symm
        · exact ih.mp h p hp
      · intro h
        exact ih.mpr fun p hp => h p (Or.inr hp)

/-- A successful lookup returns an entry of the list. -/
lemma lookup_some_mem (m : List (Nat × String)) (k : Nat) (s : String)
    (h : m.lookup k = some s) : (k, s) ∈ m := by
  induction m with
  | nil => simp at h
  | cons p rest ih =>
    rcases p with ⟨k1, v1⟩
    rw [List.lookup_cons] at h
    by_cases hk : k = k1
    · subst hk
      rw [beq_self_eq_true] at h
      have h2 : v1 = s := Option.some_inj.mp h
      subst h2
      exact List.mem_cons_self _ _
    · have hb : (k == k1) = false := beq_eq_false_iff_ne.mpr hk
      rw [hb] at h
      exact List.mem_cons_of_mem _ (ih h)

/-- Accumulator form of `buildDups`. -/
lemma foldl_prepend (l : List imageDetails) :
    ∀ acc : List (Nat × String),
      l.foldl (fun m r => (r.Hash, r.Source) :: m) acc =
        (l.map fun r => (r.Hash, r.Source)).reverse ++ acc := by
  induction l with
  | nil => intro acc; simp
  | cons r rest ih =>
    intro acc
    simp only [List.foldl_cons, List.map_cons, List.reverse_cons]
    rw [ih]
    simp

/-- The lazily-built lookup map is the record list of (fingerprint,
source) pairs, most recent first. -/
lemma buildDups_eq (l : List imageDetails) :
    buildDups l = (l.map fun r => (r.Hash, r.Source)).reverse := by
  unfold buildDups
  rw [foldl_prepend]
  simp

/-- Registering the appended record is the same as rebuilding the map
from the extended collection. -/
lemma buildDups_append_one (l : List imageDetails) (info : imageDetails) :
    buildDups (l ++ [info]) = (info.Hash, info.Source) :: buildDups l := by
  rw [buildDups_eq, buildDups_eq]
  simp

/-- Entries of the built map are exactly the records' (fingerprint,
source) pairs. -/
lemma mem_buildDups (l : List imageDetails) (p : Nat × String) :
    p ∈ buildDups l ↔ ∃ r ∈ l, r.Hash = p.1 ∧ r.Source = p.2 := by
  rw [buildDups_eq, List.mem_reverse, List.mem_map]
  constructor
  · rintro ⟨r, hr, heq⟩
    exact ⟨r, hr, by rw [← heq], by rw [← heq]⟩
  · rintro ⟨r, hr, h1, h2⟩
    rcases p with ⟨a, b⟩
    exact ⟨r, hr, by simp only at h1 h2; rw [h1, h2]⟩

/-- The built map misses a fingerprint exactly when no record carries
it. -/
lemma buildDups_lookup_none (l : List imageDetails) (k : Nat) :
    (buildDups l).lookup k = none ↔ k ∉ l.map imageDetails.Hash := by
  rw [lookup_none_iff]
  constructor
  · intro h hk
    obtain ⟨r, hr, hrk⟩ := List.mem_map.mp hk
    exact h (r.Hash, r.Source) ((mem_buildDups l _).mpr ⟨r, hr, rfl, rfl⟩) hrk
  · intro h p hp hpk
    obtain ⟨r, hr, h1, h2⟩ := (mem_buildDups l p).mp hp
    exact h (List.mem_map.mpr ⟨r, hr, by rw [h1, hpk]⟩)

/-- A hit in the built map comes from a record with that fingerprint and
the returned source. -/
lemma buildDups_lookup_some (l : List imageDetails) (k : Nat) (s : String)
    (h : (buildDups l).lookup k = some s) : ∃ r ∈ l, r.Hash = k ∧ r.Source = s :=
  (mem_buildDups l (k, s)).mp (lookup_some_mem _ _ _ h)

/-- Reachable exact-mode states: the lookup map is either not yet built
or agrees with the record collection (true of a fresh cache, of a loaded
snapshot, and preserved by every `addNoPhash` call). -/
def exactConsistent (c : galleryCache) : Prop :=
  c.dups = none ∨ c.dups = some (buildDups c.Images)

/-- On consistent states the effective map is the one built from the
records. -/
lemma mEff_of_consistent (c : galleryCache) (hc : exactConsistent c) :
    mEff c = buildDups c.Images := by
  rcases hc with h | h <;> simp [mEff, h]

/-- Case analysis of one exact-mode insert on a consistent state: a
fresh fingerprint is appended with success; a present fingerprint leaves
the collection unchanged (no-op success or duplicate error). -/
lemma addNoPhash_step (c : galleryCache) (info : imageDetails) (hc : exactConsistent c) :
    exactConsistent (addNoPhash c info).1 ∧
      (((addNoPhash c info).2 = none ∧ info.Hash ∉ c.Images.map imageDetails.Hash ∧
          ((addNoPhash c info).1).Images = c.Images ++ [info]) ∨
        (info.Hash ∈ c.Images.map imageDetails.Hash ∧
          ((addNoPhash c info).1).Images = c.Images)) := by
  have hm := mEff_of_consistent c hc
  simp only [addNoPhash, hm]
  split
  · rename_i s hl
    obtain ⟨r, hr, h1, h2⟩ := buildDups_lookup_some c.Images info.Hash s hl
    have hmem : info.Hash ∈ c.Images.map imageDetails.Hash := List.mem_map.mpr ⟨r, hr, h1⟩
    by_cases hss : s = info.Source
    · rw [if_pos hss]
      exact ⟨Or.inr rfl, Or.inr ⟨hmem, rfl⟩⟩
    · rw [if_neg hss]
      exact ⟨Or.inr rfl, Or.inr ⟨hmem, rfl⟩⟩
  · rename_i hl
    refine ⟨Or.inr ?_, Or.inl ⟨rfl, (buildDups_lookup_none c.Images info.Hash).mp hl, rfl⟩⟩
    show some ((info.Hash, info.Source) :: buildDups c.Images) = some (buildDups (c.Images ++ [info]))
    rw [buildDups_append_one]

/-- A fingerprint already present in the collection contributes nothing
new to the set of fingerprints. -/
lemma toFinset_dup_absorb (l t : List imageDetails) (info : imageDetails)
    (hmem : info.Hash ∈ l.map imageDetails.Hash) :
    ((l ++ info :: t).map imageDetails.Hash).toFinset =
      ((l ++ t).map imageDetails.Hash).toFinset := by
  ext a
  simp only [List.mem_toFinset, List.mem_map, List.mem_append, List.mem_cons]
  constructor
  · rintro ⟨r, hr, rfl⟩
    rcases hr with hr | hr | hr
    · exact ⟨r, Or.inl hr, rfl⟩
    · subst hr
      obtain ⟨r2, hr2, hh⟩ := List.mem_map.mp hmem
      exact ⟨r2, Or.inl hr2, hh⟩
    · exact ⟨r, Or.inr hr, rfl⟩
  · rintro ⟨r, hr, rfl⟩
    rcases hr with hr | hr
    · exact ⟨r, Or.inl hr, rfl⟩
    · exact ⟨r, Or.inr (Or.inr hr), rfl⟩

/-- Exact-mode run invariant: starting from a consistent duplicate-free
state, any insert sequence keeps fingerprints pairwise distinct, and the
record count equals the number of distinct fingerprints among the
initial records and the successfully inserted ones. -/
lemma runInserts_exact (dist : Nat → Nat → Nat) (infos : List imageDetails) :
    ∀ c : galleryCache, c.UsePhash = false → exactConsistent c →
      (c.Images.map imageDetails.Hash).Nodup →
      ((runInsertsTrace dist c infos).1.UsePhash = false ∧
        exactConsistent (runInsertsTrace dist c infos).1 ∧
        ((runInsertsTrace dist c infos).1.Images.map imageDetails.Hash).Nodup ∧
        (runInsertsTrace dist c infos).1.Images.length =
          ((c.Images ++ (runInsertsTrace dist c infos).2).map imageDetails.Hash).toFinset.card) := by
  induction infos with
  | nil =>
    intro c h1 h2 h3
    refine ⟨h1, h2, h3, ?_⟩
    simp only [runInsertsTrace, List.append_nil]
    rw [List.toFinset_card_of_nodup h3, List.length_map]
  | cons info rest ih =>
    intro c h1 h2 h3
    have hdisp : galleryCache.add dist c info = addNoPhash c info := by
      simp [galleryCache.add, h1]
    have hmode : ((addNoPhash c info).1).UsePhash = false := by
      rw [addNoPhash_mode]
      exact h1
    obtain ⟨hcons, hcase⟩ := addNoPhash_step c info h2
    simp only [runInsertsTrace, hdisp]
    rcases hcase with ⟨he, hnotmem, him⟩ | ⟨hmem, him⟩
    · have hnd : (((addNoPhash c info).1).Images.map imageDetails.Hash).Nodup := by
        rw [him, List.map_append, List.nodup_append]
        refine ⟨h3, by simp, fun a ha hb => ?_⟩
        simp only [List.map_cons, List.map_nil, List.mem_singleton] at hb
        subst hb
        exact hnotmem ha
      have hres := ih (addNoPhash c info).1 hmode hcons hnd
      rw [he]
      refine ⟨hres.1, hres.2.1, hres.2.2.1, ?_⟩
      show (runInsertsTrace dist (addNoPhash c info).1 rest).1.Images.length =
        ((c.Images ++ info :: (runInsertsTrace dist (addNoPhash c info).1 rest).2).map
            imageDetails.Hash).toFinset.card
      rw [hres.2.2.2, him]
      have hl : (c.Images ++ [info]) ++ (runInsertsTrace dist (addNoPhash c info).1 rest).2 =
          c.Images ++ info :: (runInsertsTrace dist (addNoPhash c info).1 rest).2 := by
        simp
      rw [hl]
    · have hnd : (((addNoPhash c info).1).Images.map imageDetails.Hash).Nodup := by
        rw [him]
        exact h3
      have hres := ih (addNoPhash c info).1 hmode hcons hnd
      rcases he2 : (addNoPhash c info).2 with _ | msg
      · refine ⟨hres.1, hres.2.1, hres.2.2.1, ?_⟩
        show (runInsertsTrace dist (addNoPhash c info).1 rest).1.Images.length =
          ((c.Images ++ info :: (runInsertsTrace dist (addNoPhash c info).1 rest).2).map
              imageDetails.Hash).toFinset.card
        rw [hres.2.2.2, him, toFinset_dup_absorb _ _ _ hmem]
      · refine ⟨hres.1, hres.2.1, hres.2.2.1, ?_⟩
        show (runInsertsTrace dist (addNoPhash c info).1 rest).1.Images.length =
          ((c.Images ++ (runInsertsTrace dist (addNoPhash c info).1 rest).2).map
              imageDetails.Hash).toFinset.card
        rw [hres.2.2.2, him]

/-- Evaluation of one exact-mode insert when the fingerprint is absent
from the lookup map. -/
lemma addNoPhash_eval_none (c : galleryCache) (info : imageDetails)
    (hl : (mEff c).lookup info.Hash = none) :
    addNoPhash c info =
      ({ c with
          Images := c.Images ++ [info]
          dups := some ((info.Hash, info.Source) :: mEff c)
          n := c.n + 1 }, none) := by
  simp only [addNoPhash]
  rw [hl]

/-- Evaluation of one exact-mode insert when the fingerprint is present
in the lookup map. -/
lemma addNoPhash_eval_some (c : galleryCache) (info : imageDetails) (s : String)
    (hl : (mEff c).lookup info.Hash = some s) :
    addNoPhash c info =
      if s = info.Source then ({ c with dups := some (mEff c) }, none)
      else ({ c with dups := some (mEff c) }, some (dupIdMsg info s)) := by
  simp only [addNoPhash]
  rw [hl]

/-- With pairwise-distinct fingerprints, looking up a record's
fingerprint returns that record's source. -/
lemma buildDups_lookup_of_mem (l : List imageDetails)
    (hnd : (l.map imageDetails.Hash).Nodup) (r : imageDetails) (hr : r ∈ l) :
    (buildDups l).lookup r.Hash = some r.Source := by
  rcases hl : (buildDups l).lookup r.Hash with _ | s
  · exact absurd (List.mem_map.mpr ⟨r, hr, rfl⟩) ((buildDups_lookup_none l r.Hash).mp hl)
  · obtain ⟨r2, hr2, h1, h2⟩ := buildDups_lookup_some l r.Hash s hl
    have hrr : r2 = r := List.inj_on_of_nodup_map hnd hr2 hr h1
    rw [← h2, hrr]

/-- Dispatch of `tryInsert` in perceptual mode. -/
lemma add_phash_dispatch (dist : Nat → Nat → Nat) (c : galleryCache) (info : imageDetails)
    (h : c.UsePhash = true) : galleryCache.add dist c info = addWithPhash dist c info := by
  simp [galleryCache.add, h]

/-- Dispatch of `tryInsert` in exact mode. -/
lemma add_exact_dispatch (dist : Nat → Nat → Nat) (c : galleryCache) (info : imageDetails)
    (h : c.UsePhash = false) : galleryCache.add dist c info = addNoPhash c info := by
  simp [galleryCache.add, h]

/-- Evaluation of `addWithPhash` when the search lands on a record with
exactly the incoming fingerprint. -/
lemma addWithPhash_eval_equal (dist : Nat → Nat → Nat) (c : galleryCache) (info : imageDetails)
    (hlt : searchIdx c.Images info.Hash < c.Images.length)
    (heq : (c.Images.getD (searchIdx c.Images info.Hash) dImg).Hash = info.Hash) :
    addWithPhash dist c info =
      if (c.Images.getD (searchIdx c.Images info.Hash) dImg).Source = info.Source ∧
          (c.Images.getD (searchIdx c.Images info.Hash) dImg).Time = info.Time then (c, none)
      else (c, some (samePhashMsg (c.Images.getD (searchIdx c.Images info.Hash) dImg))) := by
  simp only [addWithPhash]
  rw [if_neg (by omega : ¬searchIdx c.Images info.Hash = c.Images.length), if_pos heq]

/-- Evaluation of `addWithPhash` when the search runs past the end of an
empty collection. -/
lemma addWithPhash_eval_append0 (dist : Nat → Nat → Nat) (c : galleryCache)
    (info : imageDetails) (hn : searchIdx c.Images info.Hash = c.Images.length)
    (h0 : searchIdx c.Images info.Hash = 0) :
    addWithPhash dist c info = ({ c with Images := c.Images ++ [info], n := c.n + 1 }, none) := by
  simp only [addWithPhash]
  rw [if_pos hn, if_neg (show ¬searchIdx c.Images info.Hash ≠ 0 from fun hh => hh h0)]

/-- Evaluation of `addWithPhash` when the record belongs past the end
and is far from the last record. -/
lemma addWithPhash_eval_append_far (dist : Nat → Nat → Nat) (c : galleryCache)
    (info : imageDetails) (hn : searchIdx c.Images info.Hash = c.Images.length)
    (h0 : searchIdx c.Images info.Hash ≠ 0)
    (hfar : minDiff <
      dist info.Hash ((c.Images.getD (searchIdx c.Images info.Hash - 1) dImg)).Hash) :
    addWithPhash dist c info = ({ c with Images := c.Images ++ [info], n := c.n + 1 }, none) := by
  simp only [addWithPhash]
  rw [if_pos hn, if_pos h0, if_neg (by omega)]

/-- Evaluation of `addWithPhash` when the record belongs past the end
but is within the threshold of the last record. -/
lemma addWithPhash_eval_append_rej (dist : Nat → Nat → Nat) (c : galleryCache)
    (info : imageDetails) (hn : searchIdx c.Images info.Hash = c.Images.length)
    (h0 : searchIdx c.Images info.Hash ≠ 0)
    (hnear : dist info.Hash ((c.Images.getD (searchIdx c.Images info.Hash - 1) dImg)).Hash ≤
      minDiff) :
    addWithPhash dist c info =
      (c, some (phashDupMsg
        (dist info.Hash ((c.Images.getD (searchIdx c.Images info.Hash - 1) dImg)).Hash)
        (c.Images.getD (searchIdx c.Images info.Hash - 1) dImg))) := by
  simp only [addWithPhash]
  rw [if_pos hn, if_pos h0, if_pos hnear]

/-- Search over the empty collection lands at index 0. -/
lemma searchIdx_nil (t : Nat) : searchIdx [] t = 0 := rfl

/-- Search over a singleton with a smaller fingerprint lands past the
end. -/
lemma searchIdx_singleton_gt (r : imageDetails) (t : Nat) (h : r.Hash < t) :
    searchIdx [r] t = 1 := by
  have hd : hashGE [r] t 0 = false := by
    simp only [hashGE]
    exact decide_eq_false (by simp [List.getD]; omega)
  simp only [searchIdx, goSearch]
  show goSearchAux (hashGE [r] t) 1 0 1 = 1
  simp only [goSearchAux]
  rw [if_pos (by norm_num : (0 : Nat) < 1)]
  have h02 : (0 + 1) / 2 = 0 := by norm_num
  rw [h02, hd]
  simp

/-- Symmetry of the bitwise recursion. -/
lemma hamAux_symm : ∀ (fuel a b : Nat), hamAux fuel a b = hamAux fuel b a := by
  intro fuel
  induction fuel with
  | zero => intro a b; rfl
  | succ f ih =>
    intro a b
    simp only [hamAux]
    rw [ih]
    by_cases h : a % 2 = b % 2
    · rw [if_pos h, if_pos h.symm]
    · rw [if_neg h, if_neg fun he => h he.symm]

/-- The Hamming metric is symmetric, as the spec's collaborator contract
requires. -/
lemma hamDist_symm (a b : Nat) : hamDist a b = hamDist b a := hamAux_symm 64 a b

/-- The absolute-difference metric is symmetric. -/
lemma absDist_symm (a b : Nat) : absDist a b = absDist b a := by
  simp [absDist, Nat.add_comm]


/-- C3: in perceptual fingerprint mode, starting from a record
collection sorted by non-decreasing fingerprint, every successful
`tryInsert` (whether it appends at the end or inserts at the
binary-search position, shifting subsequent elements) leaves the
collection sorted by non-decreasing fingerprint. -/
theorem C3_phash_insert_preserves_sorted (dist : Nat → Nat → Nat) (c : galleryCache)
    (info : imageDetails) (hmode : c.UsePhash = true) (hs : sortedByHash c.Images)
    (_hok : (galleryCache.add dist c info).2 = none) :
    sortedByHash ((galleryCache.add dist c info).1).Images := by
  rw [add_phash_dispatch dist c info hmode]
  exact addWithPhash_sorted dist c info hs

/-- C3 witness: a concrete successful insert between two records keeps
the collection sorted. -/
theorem C3_witness :
    (sortedPairCache.UsePhash = true ∧ sortedByHash sortedPairCache.Images ∧
        (galleryCache.add absDist sortedPairCache (mkRec 300 "c.jpg" 0)).2 = none) ∧
      sortedByHash ((galleryCache.add absDist sortedPairCache (mkRec 300 "c.jpg" 0)).1).Images :=
  ⟨⟨rfl, by decide, by decide⟩,
    C3_phash_insert_preserves_sorted absDist sortedPairCache (mkRec 300 "c.jpg" 0) rfl
      (by decide) (by decide)⟩

/-- C2 counterexample: under the Hamming metric (the kind of metric the
perceptual hash uses: symmetric, but without locality in numeric order),
four records are all accepted from an empty cache, yet the first and
third accepted records have distinct fingerprints at distance 1 ≤ 5 —
the pairwise-separation claim fails for the non-adjacent pair. -/
theorem C2_counterexample :
    (runInsertsTrace hamDist emptyPhash
        [mkRec 0 "a.jpg" 0, mkRec 1099779014656 "d.jpg" 0, mkRec 127 "b.jpg" 0,
          mkRec 1099511627776 "c.jpg" 0]).2 =
      [mkRec 0 "a.jpg" 0, mkRec 1099779014656 "d.jpg" 0, mkRec 127 "b.jpg" 0,
        mkRec 1099511627776 "c.jpg" 0] ∧
      (runInsertsTrace hamDist emptyPhash
          [mkRec 0 "a.jpg" 0, mkRec 1099779014656 "d.jpg" 0, mkRec 127 "b.jpg" 0,
            mkRec 1099511627776 "c.jpg" 0]).1.Images.map imageDetails.Hash =
        [0, 127, 1099511627776, 1099779014656] ∧
      hamDist 0 1099511627776 ≤ minDiff ∧ (0 : Nat) ≠ 1099511627776 := by
  decide

/-- C2 (amended): in perceptual fingerprint mode with a symmetric
distance metric, after any sequence of `tryInsert` calls starting from a
hash-sorted state whose adjacent records are pairwise beyond the
threshold, the collection stays hash-sorted and every pair of records
that are adjacent in fingerprint order lies strictly beyond the
threshold; non-adjacent pairs may be within it (the code checks only the
two neighbours of the insertion point). -/
theorem C2_phash_neighbors_separated (dist : Nat → Nat → Nat)
    (hsym : ∀ a b : Nat, dist a b = dist b a) (c : galleryCache) (infos : List imageDetails)
    (hmode : c.UsePhash = true) (hs : sortedByHash c.Images)
    (hsep : neighborsSeparated dist c.Images) :
    sortedByHash ((runInsertsTrace dist c infos).1).Images ∧
      neighborsSeparated dist ((runInsertsTrace dist c infos).1).Images := by
  induction infos generalizing c with
  | nil => exact ⟨hs, hsep⟩
  | cons info rest ih =>
    simp only [runInsertsTrace, add_phash_dispatch dist c info hmode]
    exact ih (addWithPhash dist c info).1
      (by rw [addWithPhash_mode]; exact hmode)
      (addWithPhash_sorted dist c info hs)
      (addWithPhash_separated dist hsym c info hsep)

/-- C2 witness: the amended invariant applied to a concrete insert into
the empty cache under the Hamming metric. -/
theorem C2_witness :
    ((∀ a b : Nat, hamDist a b = hamDist b a) ∧ emptyPhash.UsePhash = true ∧
        sortedByHash emptyPhash.Images ∧ neighborsSeparated hamDist emptyPhash.Images) ∧
      sortedByHash ((runInsertsTrace hamDist emptyPhash [mkRec 100 "x.jpg" 0]).1).Images ∧
      neighborsSeparated hamDist
        ((runInsertsTrace hamDist emptyPhash [mkRec 100 "x.jpg" 0]).1).Images :=
  ⟨⟨hamDist_symm, rfl, by decide, by decide⟩,
    C2_phash_neighbors_separated hamDist hamDist_symm emptyPhash [mkRec 100 "x.jpg" 0] rfl
      (by decide) (by decide)⟩

/-- C9: after walker and workers complete without error, the run fails
with the empty-result error exactly when the cache holds no records;
otherwise the record collection handed to the renderer is the cache's
collection sorted by capture time descending. -/
theorem C9_finalize_empty_iff_sorted (c : galleryCache) :
    (isErr (finalizeRun c) = true ↔ c.Images = []) ∧
      ∀ c2 : galleryCache, finalizeRun c = Except.ok c2 →
        List.Sorted byTimeDesc c2.Images ∧ c2.Images.Perm c.Images := by
  constructor
  · constructor
    · intro h
      by_cases hz : c.Images.length = 0
      · exact List.length_eq_zero.mp hz
      · exfalso
        simp only [finalizeRun, if_neg hz, isErr] at h
        exact Bool.noConfusion h
    · intro h
      have hz : c.Images.length = 0 := by rw [h]; rfl
      simp only [finalizeRun, if_pos hz, isErr]
  · intro c2 h
    by_cases hz : c.Images.length = 0
    · simp only [finalizeRun, if_pos hz] at h
      exact Except.noConfusion h
    · simp only [finalizeRun, if_neg hz] at h
      have h2 : sortByTime c = c2 := by
        injection h
      subst h2
      constructor
      · show List.Sorted byTimeDesc (c.Images.insertionSort byTimeDesc)
        exact List.sorted_insertionSort byTimeDesc c.Images
      · show (c.Images.insertionSort byTimeDesc).Perm c.Images
        exact List.perm_insertionSort byTimeDesc c.Images

/-- C9 witness: finalizing a concrete two-record cache succeeds and
yields the collection sorted newest-first. -/
theorem C9_witness :
    finalizeRun twoRecCache = Except.ok (sortByTime twoRecCache) ∧
      List.Sorted byTimeDesc (sortByTime twoRecCache).Images ∧
      (sortByTime twoRecCache).Images.Perm twoRecCache.Images :=
  ⟨rfl, (C9_finalize_empty_iff_sorted twoRecCache).2 (sortByTime twoRecCache) rfl⟩

/-- C10: when a snapshot is successfully loaded at process start, the
loaded cache replaces the fresh page wholesale (only the gallery name
can still be overridden), so the snapshot's stored fingerprint mode
governs the run and the command-line perceptual-hash toggle is ignored;
the mode-mismatch log line is emitted exactly when the two disagree, and
`tryInsert` dispatches on the stored mode. -/
theorem C10_snapshot_mode_wins (args : runArgs) (c : galleryCache) :
    (initialPage args (some c)).1 =
        { c with Name := if args.Name ≠ "" then args.Name else c.Name } ∧
      ((initialPage args (some c)).2 = true ↔ c.UsePhash ≠ args.Phash) ∧
      ∀ (dist : Nat → Nat → Nat) (info : imageDetails),
        galleryCache.add dist (initialPage args (some c)).1 info =
          (if c.UsePhash then addWithPhash dist (initialPage args (some c)).1 info
            else addNoPhash (initialPage args (some c)).1 info) := by
  have h1 : (initialPage args (some c)).1 =
      { c with Name := if args.Name ≠ "" then args.Name else c.Name } := by
    show (if args.Name ≠ "" then { c with Name := args.Name } else c) =
      { c with Name := if args.Name ≠ "" then args.Name else c.Name }
    by_cases hn : args.Name ≠ ""
    · rw [if_pos hn, if_pos hn]
    · rw [if_neg hn, if_neg hn]
  refine ⟨h1, ?_, ?_⟩
  · show decide (c.UsePhash ≠ args.Phash) = true ↔ c.UsePhash ≠ args.Phash
    simp
  · intro dist info
    have hu : ((initialPage args (some c)).1).UsePhash = c.UsePhash := by
      rw [h1]
    simp only [galleryCache.add, hu]

/-- C7 counterexample: with the max-bounds policy maxW = maxH = 500 and
original dimensions (0, 0) — which satisfy origW ≤ boxW and
origH ≤ boxH — `newDimensions` fails instead of returning the original
dimensions, so the claim's quantifier over "every original dimensions"
is too broad. -/
theorem C7_counterexample :
    (0 < boundTr.MaxWidth ∨ 0 < boundTr.MaxHeight) ∧
      0 ≤ (derivedBox boundTr 0 0).1 ∧ 0 ≤ (derivedBox boundTr 0 0).2 ∧
      isErr (transform.newDimensions boundTr 0 0) = true := by
  decide

/-- C7 (amended): for every max-bounds policy and every positive
original dimensions that already fit inside the box derived from the
given max dimensions and the original aspect ratio, `newDimensions`
returns exactly the original dimensions — it never upscales. -/
theorem C7_newDimensions_no_upscale (tr : transform) (origWidth origHeight : Nat)
    (hpol : 0 < tr.MaxWidth ∨ 0 < tr.MaxHeight) (hw : 0 < origWidth) (hh : 0 < origHeight)
    (hfw : origWidth ≤ (derivedBox tr origWidth origHeight).1)
    (hfh : origHeight ≤ (derivedBox tr origWidth origHeight).2) :
    tr.newDimensions origWidth origHeight = Except.ok (origWidth, origHeight) := by
  simp only [transform.newDimensions]
  rw [if_neg (by omega : ¬(origWidth = 0 ∨ origHeight = 0)), if_pos hpol, if_pos ⟨hfw, hfh⟩]

/-- C7 witness: a 400×300 original inside a 500×500 bound is returned
unchanged. -/
theorem C7_witness :
    ((0 < boundTr.MaxWidth ∨ 0 < boundTr.MaxHeight) ∧ 0 < 400 ∧ 0 < 300 ∧
      400 ≤ (derivedBox boundTr 400 300).1 ∧ 300 ≤ (derivedBox boundTr 400 300).2) ∧
      transform.newDimensions boundTr 400 300 = Except.ok (400, 300) :=
  ⟨⟨by decide, by decide, by decide, by decide, by decide⟩,
    C7_newDimensions_no_upscale boundTr 400 300 (by decide) (by decide) (by decide) (by decide)
      (by decide)⟩

/-- C8: `newDimensions` fails whenever either original dimension is
zero, for every policy; it fails whenever the policy specifies no
dimension at all, for every original dimensions; and `newTransform`
rejects the all-zero policy. -/
theorem C8_newDimensions_failure_cases :
    (∀ (tr : transform) (ow oh : Nat), ow = 0 ∨ oh = 0 →
        isErr (tr.newDimensions ow oh) = true) ∧
      (∀ (tr : transform) (ow oh : Nat),
        tr.Width = 0 → tr.Height = 0 → tr.MaxWidth = 0 → tr.MaxHeight = 0 →
          isErr (tr.newDimensions ow oh) = true) ∧
      isErr (newTransform 0 0 0 0) = true := by
  refine ⟨?_, ?_, ?_⟩
  · intro tr ow oh h
    simp only [transform.newDimensions, if_pos h]
    rfl
  · intro tr ow oh h1 h2 h3 h4
    by_cases hz : ow = 0 ∨ oh = 0
    · simp only [transform.newDimensions, if_pos hz]
      rfl
    · simp only [transform.newDimensions, if_neg hz]
      rw [if_neg (by omega : ¬(0 < tr.MaxWidth ∨ 0 < tr.MaxHeight)),
        if_neg (by omega : ¬(0 < tr.Width ∨ 0 < tr.Height))]
      rfl
  · decide

/-- C8 witness: a zero original height fails under a max-bounds policy,
and a policy with no dimension set fails on positive originals. -/
theorem C8_witness :
    isErr (transform.newDimensions boundTr 0 5) = true ∧
      isErr (transform.newDimensions zeroTr 7 9) = true :=
  ⟨C8_newDimensions_failure_cases.1 boundTr 0 5 (Or.inl rfl),
    C8_newDimensions_failure_cases.2.1 zeroTr 7 9 rfl rfl rfl rfl⟩

/-- C1 counterexample: in exact mode, re-inserting fingerprint 7 from a
different source path produces the duplicate error, and that error
message names the already-stored source path but not the incoming one —
the claim's "naming both source paths" fails (the incoming path is only
attached later by the caller's wrapping in `run`). -/
theorem C1_counterexample :
    (galleryCache.add hamDist
        (galleryCache.add hamDist emptyExact (mkRec 7 "a.jpg" 0)).1 (mkRec 7 "b.jpg" 0)).2 =
      some (dupIdMsg (mkRec 7 "b.jpg" 0) "a.jpg") ∧
      containsStr (dupIdMsg (mkRec 7 "b.jpg" 0) "a.jpg") "a.jpg" = true ∧
      containsStr (dupIdMsg (mkRec 7 "b.jpg" 0) "a.jpg") "b.jpg" = false := by
  decide

/-- C1 (amended): in exact fingerprint mode, on a consistent
duplicate-free cache: an absent fingerprint is accepted, appended, and
registered in the lookup map; a present fingerprint with identical
source path is a no-op success (beyond materializing the lazily-built
map); a present fingerprint with a different source path fails with a
duplicate error naming the derived record identifier and the existing
record's source path (not the incoming one). -/
theorem C1_exact_tryInsert_cases (dist : Nat → Nat → Nat) (c : galleryCache)
    (info : imageDetails) (hmode : c.UsePhash = false) (hc : exactConsistent c)
    (hnd : (c.Images.map imageDetails.Hash).Nodup) :
    ((∀ r ∈ c.Images, r.Hash ≠ info.Hash) →
        galleryCache.add dist c info =
          ({ c with
              Images := c.Images ++ [info]
              dups := some ((info.Hash, info.Source) :: buildDups c.Images)
              n := c.n + 1 }, none)) ∧
      (∀ r ∈ c.Images, r.Hash = info.Hash → r.Source = info.Source →
        galleryCache.add dist c info = ({ c with dups := some (buildDups c.Images) }, none)) ∧
      (∀ r ∈ c.Images, r.Hash = info.Hash → r.Source ≠ info.Source →
        galleryCache.add dist c info =
          ({ c with dups := some (buildDups c.Images) }, some (dupIdMsg info r.Source))) := by
  have hdisp := add_exact_dispatch dist c info hmode
  have hm := mEff_of_consistent c hc
  refine ⟨?_, ?_, ?_⟩
  · intro habs
    have hnone : (mEff c).lookup info.Hash = none := by
      rw [hm]
      refine (buildDups_lookup_none _ _).mpr fun hk => ?_
      obtain ⟨r, hr, hh⟩ := List.mem_map.mp hk
      exact habs r hr hh
    rw [hdisp, addNoPhash_eval_none c info hnone, hm]
  · intro r hr hhash hsrc
    have hsome : (mEff c).lookup info.Hash = some r.Source := by
      rw [hm, ← hhash]
      exact buildDups_lookup_of_mem c.Images hnd r hr
    rw [hdisp, addNoPhash_eval_some c info r.Source hsome, if_pos hsrc, hm]
  · intro r hr hhash hsrc
    have hsome : (mEff c).lookup info.Hash = some r.Source := by
      rw [hm, ← hhash]
      exact buildDups_lookup_of_mem c.Images hnd r hr
    rw [hdisp, addNoPhash_eval_some c info r.Source hsome, if_neg hsrc, hm]

/-- C1 witness: inserting a fresh fingerprint into the empty exact-mode
cache appends the record and registers its fingerprint. -/
theorem C1_witness :
    (emptyExact.UsePhash = false ∧ exactConsistent emptyExact ∧
        (emptyExact.Images.map imageDetails.Hash).Nodup) ∧
      galleryCache.add hamDist emptyExact (mkRec 7 "a.jpg" 0) =
        ({ emptyExact with
            Images := [mkRec 7 "a.jpg" 0]
            dups := some [(7, "a.jpg")]
            n := 1 }, none) := by
  refine ⟨⟨rfl, Or.inl rfl, by decide⟩, ?_⟩
  have h := (C1_exact_tryInsert_cases hamDist emptyExact (mkRec 7 "a.jpg" 0) rfl (Or.inl rfl)
    (by decide)).1 (by intro r hr; exact absurd hr (List.not_mem_nil r))
  exact h

/-- C4: in exact fingerprint mode, after any sequence of `tryInsert`
calls starting from a duplicate-free cache whose lookup map is not yet
built (as at process start; the empty cache is the special case), the
fingerprints of all records are pairwise distinct and the record count
equals the number of distinct fingerprints among the initial records and
the successfully inserted ones. -/
theorem C4_exact_mode_distinct_count (dist : Nat → Nat → Nat) (c : galleryCache)
    (infos : List imageDetails) (hmode : c.UsePhash = false) (hd : c.dups = none)
    (hnd : (c.Images.map imageDetails.Hash).Nodup) :
    ((runInsertsTrace dist c infos).1.Images.map imageDetails.Hash).Nodup ∧
      (runInsertsTrace dist c infos).1.Images.length =
        ((c.Images ++ (runInsertsTrace dist c infos).2).map imageDetails.Hash).toFinset.card := by
  have h := runInserts_exact dist infos c hmode (Or.inl hd) hnd
  exact ⟨h.2.2.1, h.2.2.2⟩

/-- C4 witness: a run over four records (a fresh fingerprint, a
re-submission, a same-fingerprint different-source duplicate, and a
second fresh fingerprint) from the empty cache. -/
theorem C4_witness :
    (emptyExact.UsePhash = false ∧ emptyExact.dups = none ∧
        (emptyExact.Images.map imageDetails.Hash).Nodup) ∧
      ((runInsertsTrace hamDist emptyExact
          [mkRec 1 "a.jpg" 0, mkRec 1 "a.jpg" 0, mkRec 1 "b.jpg" 0,
            mkRec 2 "c.jpg" 0]).1.Images.map imageDetails.Hash).Nodup ∧
      (runInsertsTrace hamDist emptyExact
          [mkRec 1 "a.jpg" 0, mkRec 1 "a.jpg" 0, mkRec 1 "b.jpg" 0,
            mkRec 2 "c.jpg" 0]).1.Images.length =
        ((emptyExact.Images ++ (runInsertsTrace hamDist emptyExact
            [mkRec 1 "a.jpg" 0, mkRec 1 "a.jpg" 0, mkRec 1 "b.jpg" 0,
              mkRec 2 "c.jpg" 0]).2).map imageDetails.Hash).toFinset.card :=
  ⟨⟨rfl, rfl, by decide⟩,
    C4_exact_mode_distinct_count hamDist emptyExact
      [mkRec 1 "a.jpg" 0, mkRec 1 "a.jpg" 0, mkRec 1 "b.jpg" 0, mkRec 2 "c.jpg" 0]
      rfl rfl (by decide)⟩

/-- C5: in perceptual fingerprint mode, when the cache (hash-sorted)
holds a record whose fingerprint equals the incoming record's
fingerprint, the binary search lands on such a record, and `tryInsert`
is a no-op success when that record has the same source path and capture
time, and otherwise fails with the exact-perceptual-duplicate error. -/
theorem C5_phash_equal_fingerprint_cases (dist : Nat → Nat → Nat) (c : galleryCache)
    (info : imageDetails) (hmode : c.UsePhash = true) (hs : sortedByHash c.Images)
    (hfind : ∃ r ∈ c.Images, r.Hash = info.Hash) :
    searchIdx c.Images info.Hash < c.Images.length ∧
      (c.Images.getD (searchIdx c.Images info.Hash) dImg).Hash = info.Hash ∧
      (((c.Images.getD (searchIdx c.Images info.Hash) dImg).Source = info.Source ∧
          (c.Images.getD (searchIdx c.Images info.Hash) dImg).Time = info.Time) →
        galleryCache.add dist c info = (c, none)) ∧
      (¬((c.Images.getD (searchIdx c.Images info.Hash) dImg).Source = info.Source ∧
          (c.Images.getD (searchIdx c.Images info.Hash) dImg).Time = info.Time) →
        galleryCache.add dist c info =
          (c, some (samePhashMsg (c.Images.getD (searchIdx c.Images info.Hash) dImg)))) := by
  obtain ⟨r, hr, hrh⟩ := hfind
  obtain ⟨j, hj, hjr⟩ := List.mem_iff_getElem.mp hr
  have hspec := searchIdx_spec c.Images info.Hash hs
  have hij : searchIdx c.Images info.Hash ≤ j := by
    by_contra hcon
    push_neg at hcon
    have hlow := hspec.2.1 j hcon
    rw [getD_lt c.Images hj, hjr] at hlow
    omega
  have hlt : searchIdx c.Images info.Hash < c.Images.length := lt_of_le_of_lt hij hj
  have hgei := hspec.2.2 (searchIdx c.Images info.Hash) le_rfl hlt
  have hlei : (c.Images.getD (searchIdx c.Images info.Hash) dImg).Hash ≤ info.Hash := by
    have hmono := sorted_hash_mono c.Images hs hij hj
    rw [getD_lt c.Images hj, hjr] at hmono
    omega
  have heq : (c.Images.getD (searchIdx c.Images info.Hash) dImg).Hash = info.Hash := by omega
  have heval := addWithPhash_eval_equal dist c info hlt heq
  have hdisp := add_phash_dispatch dist c info hmode
  refine ⟨hlt, heq, ?_, ?_⟩
  · intro hst
    rw [hdisp, heval, if_pos hst]
  · intro hst
    rw [hdisp, heval, if_neg hst]

/-- C5 witness: re-submitting the single cached record (same
fingerprint, source, and time) is a no-op success. -/
theorem C5_witness :
    (singletonPhashCache.UsePhash = true ∧ sortedByHash singletonPhashCache.Images ∧
        (∃ r ∈ singletonPhashCache.Images, r.Hash = (mkRec 5 "a.jpg" 10).Hash)) ∧
      galleryCache.add hamDist singletonPhashCache (mkRec 5 "a.jpg" 10) =
        (singletonPhashCache, none) := by
  refine ⟨⟨rfl, by decide, ⟨mkRec 5 "a.jpg" 10, by decide, rfl⟩⟩, ?_⟩
  have h := C5_phash_equal_fingerprint_cases hamDist singletonPhashCache (mkRec 5 "a.jpg" 10)
    rfl (by decide) ⟨mkRec 5 "a.jpg" 10, by decide, rfl⟩
  exact h.2.2.1 (by decide)

/-- C6: in perceptual mode with threshold 5 and a distance metric with
distance(101, 100) = 1 and distance(500, 100) > 5, starting from the
empty cache: fingerprint 100 is accepted; fingerprint 101 is then
rejected as a near-duplicate at distance 1; fingerprint 500 is then
accepted, leaving the collection holding exactly the fingerprints
[100, 500] in that order. -/
theorem C6_phash_scenario (dist : Nat → Nat → Nat) (r1 r2 r3 : imageDetails)
    (h1 : r1.Hash = 100) (h2 : r2.Hash = 101) (h3 : r3.Hash = 500)
    (hd1 : dist 101 100 = 1) (hd2 : minDiff < dist 500 100) :
    (galleryCache.add dist emptyPhash r1).2 = none ∧
      (galleryCache.add dist (galleryCache.add dist emptyPhash r1).1 r2).2 =
        some (phashDupMsg 1 r1) ∧
      (galleryCache.add dist
          (galleryCache.add dist (galleryCache.add dist emptyPhash r1).1 r2).1 r3).2 = none ∧
      ((galleryCache.add dist
          (galleryCache.add dist (galleryCache.add dist emptyPhash r1).1 r2).1 r3).1).Images.map
        imageDetails.Hash = [100, 500] := by
  have e1 : galleryCache.add dist emptyPhash r1 =
      ({ emptyPhash with Images := [r1], n := 1 }, none) := by
    rw [add_phash_dispatch dist emptyPhash r1 rfl]
    exact addWithPhash_eval_append0 dist emptyPhash r1 rfl rfl
  have hidx2 : searchIdx ({ emptyPhash with Images := [r1], n := 1 } : galleryCache).Images
      r2.Hash = 1 :=
    searchIdx_singleton_gt r1 r2.Hash (by omega)
  have e2 : galleryCache.add dist { emptyPhash with Images := [r1], n := 1 } r2 =
      ({ emptyPhash with Images := [r1], n := 1 }, some (phashDupMsg 1 r1)) := by
    rw [add_phash_dispatch dist _ r2 rfl]
    have heval := addWithPhash_eval_append_rej dist
      { emptyPhash with Images := [r1], n := 1 } r2
      (by rw [hidx2]; rfl)
      (by rw [hidx2]; omega)
      (by rw [hidx2]
          show dist r2.Hash r1.Hash ≤ minDiff
          rw [h2, h1, hd1]
          decide)
    rw [heval, hidx2]
    show (_, some (phashDupMsg (dist r2.Hash r1.Hash) r1)) =
      (_, some (phashDupMsg 1 r1))
    rw [h2, h1, hd1]
  have hidx3 : searchIdx ({ emptyPhash with Images := [r1], n := 1 } : galleryCache).Images
      r3.Hash = 1 :=
    searchIdx_singleton_gt r1 r3.Hash (by omega)
  have e3 : galleryCache.add dist { emptyPhash with Images := [r1], n := 1 } r3 =
      ({ emptyPhash with Images := [r1, r3], n := 2 }, none) := by
    rw [add_phash_dispatch dist _ r3 rfl]
    have heval := addWithPhash_eval_append_far dist
      { emptyPhash with Images := [r1], n := 1 } r3
      (by rw [hidx3]; rfl)
      (by rw [hidx3]; omega)
      (by rw [hidx3]
          show minDiff < dist r3.Hash r1.Hash
          rw [h3, h1]
          exact hd2)
    rw [heval]
    rfl
  refine ⟨by simp only [e1], by simp only [e1, e2], by simp only [e1, e2, e3], ?_⟩
  simp only [e1, e2, e3, List.map_cons, List.map_nil, h1, h3]

/-- C6 witness: the scenario realized with the absolute-difference
metric and concrete records. -/
theorem C6_witness :
    ((mkRec 100 "x.jpg" 0).Hash = 100 ∧ (mkRec 101 "y.jpg" 0).Hash = 101 ∧
        (mkRec 500 "z.jpg" 0).Hash = 500 ∧ absDist 101 100 = 1 ∧ minDiff < absDist 500 100) ∧
      (galleryCache.add absDist emptyPhash (mkRec 100 "x.jpg" 0)).2 = none ∧
      (galleryCache.add absDist (galleryCache.add absDist emptyPhash (mkRec 100 "x.jpg" 0)).1
          (mkRec 101 "y.jpg" 0)).2 = some (phashDupMsg 1 (mkRec 100 "x.jpg" 0)) ∧
      (galleryCache.add absDist
          (galleryCache.add absDist (galleryCache.add absDist emptyPhash
            (mkRec 100 "x.jpg" 0)).1 (mkRec 101 "y.jpg" 0)).1 (mkRec 500 "z.jpg" 0)).2 = none ∧
      ((galleryCache.add absDist
          (galleryCache.add absDist (galleryCache.add absDist emptyPhash
            (mkRec 100 "x.jpg" 0)).1 (mkRec 101 "y.jpg" 0)).1
          (mkRec 500 "z.jpg" 0)).1).Images.map imageDetails.Hash = [100, 500] :=
  ⟨⟨rfl, rfl, rfl, by decide, by decide⟩,
    C6_phash_scenario absDist (mkRec 100 "x.jpg" 0) (mkRec 101 "y.jpg" 0) (mkRec 500 "z.jpg" 0)
      rfl rfl rfl (by decide) (by decide)⟩
